import Mathlib

/-!
A verification development for the AI2DE repository core: the AI model
routing and task-dispatch subsystem (model registry, selection policy,
transaction logging, chat/inline dispatch) and the code indexing and
embedding store (hash-triggered re-indexing, symbol search, cosine
similarity lookup).

Each definition is a shallow embedding of the corresponding TypeScript
source. JavaScript machine arithmetic (32-bit bitwise coercion) is made
explicit with integer arithmetic modulo 2 ^ 32; clock reads and random id
generation are passed in as explicit parameters; SQLite tables are lists of
rows in insertion order; thrown exceptions are Except values.
-/

namespace AI2DE

/-! ## Basic string helpers

JavaScript string primitives used by the source.  Strings are modelled as
their character lists; JS reads UTF-16 code units while Lean chars are code
points, which agree on the basic multilingual plane.
-/

/-- Does list `l` start with the list `q` (character-exact)? -/
def listStarts : List Char → List Char → Bool
  | [], _ => true
  | _ :: _, [] => false
  | a :: q, b :: l => a == b && listStarts q l

/-- Does `q` occur contiguously inside `l`?  Models `String.prototype.includes`. -/
def listOccurs (q : List Char) : List Char → Bool
  | [] => listStarts q []
  | b :: l => listStarts q (b :: l) || listOccurs q l

/-- `s.includes(q)` from JavaScript. -/
def strIncludes (s q : String) : Bool :=
  listOccurs q.data s.data

/-- JavaScript `x || fallback` on strings: the empty string is falsy. -/
def jsOrString (s fallback : String) : String :=
  if s = "" then fallback else s

/-- JavaScript `o?.f || fallback` where the optional chain yields `o`. -/
def jsOrElse (o : Option String) (fallback : String) : String :=
  jsOrString (o.getD "") fallback

/-! ## Transaction log (AIModelManager.logTransaction / clearTransactions)

`AITransaction` mirrors the record logged by the second `AIModelManager`.
The metadata object is a bag of optional fields; fields that are purely
presentational strings derived from the same data (`responseTime` ISO
rendering, `tokensPerSecond`, the truncated `requestStructure` echo) are not
observable through any specified property and are left out of the record.
-/

inductive TxType where
  | request
  | response
  | error
  | info
deriving DecidableEq

structure TxMetadata where
  contextLength : Nat
  maxTokens : Option Nat := none
  temperature : Option ℚ := none
  latency : Option Int := none
  tokens : Option Nat := none
  endpoint : Option String := none
  modelId : Option String := none
  provider : Option String := none
  isLocal : Option Bool := none
  requestId : Option String := none
  timestampMeta : Option Nat := none
  responseSize : Option Nat := none
  error : Option String := none
deriving DecidableEq

/-- `Omit<AITransaction, 'id' | 'timestamp'>`: what callers pass to `logTransaction`. -/
structure TxBody where
  type : TxType
  model : String
  operation : String
  prompt : Option String := none
  response : Option String := none
  metadata : TxMetadata
deriving DecidableEq

structure AITransaction where
  id : String
  timestamp : Nat
  type : TxType
  model : String
  operation : String
  prompt : Option String := none
  response : Option String := none
  metadata : TxMetadata
deriving DecidableEq

/-- Fill in the generated `id` and `timestamp` fields, as `logTransaction`
does from `Date.now()` and `Math.random()`; the clock value `now` and the
random suffix `rnd` are explicit parameters. -/
def mkFullTransaction (t : TxBody) (now : Nat) (rnd : String) : AITransaction :=
  { id := "tx-" ++ toString now ++ "-" ++ rnd
    timestamp := now
    type := t.type
    model := t.model
    operation := t.operation
    prompt := t.prompt
    response := t.response
    metadata := t.metadata }

/-- `AIModelManager.logTransaction`: push the completed transaction, then
keep only the last 100 entries (`this.transactions.slice(-100)`). -/
def logTransaction (log : List AITransaction) (t : TxBody) (now : Nat) (rnd : String) :
    List AITransaction :=
  let l := log ++ [mkFullTransaction t now rnd]
  if l.length > 100 then l.drop (l.length - 100) else l

/-! ## Model registry and manager state -/

/-- `ModelConfig` from `shared/types/ai.ts`.  The optional `apiKey`,
`modelPath` and `parameters` fields are never read by the manager logic and
are left out. -/
structure ModelConfig where
  id : String
  name : String
  provider : String
  type : String
  maxTokens : Nat
  contextWindow : Nat
  specialties : List String
  languages : List String
  latency : String
  isLocal : Bool
  endpoint : String
deriving DecidableEq

/-- State of the second `AIModelManager`: the config map and the map of
live adapter instances (represented by the set of ready ids, in insertion
order), the current model pointer, and the transaction log. -/
structure ManagerState where
  modelConfigs : List ModelConfig
  models : List String
  currentModel : String
  transactions : List AITransaction
deriving DecidableEq

/-- `getAvailableModels` (second manager): configs whose adapter is ready. -/
def getAvailableModels (st : ManagerState) : List ModelConfig :=
  st.modelConfigs.filter (fun config => st.models.contains config.id)

/-- `this.modelConfigs.get(id)` on the config map. -/
def configFor (st : ManagerState) (id : String) : Option ModelConfig :=
  st.modelConfigs.find? (fun c => c.id == id)

/-! ## Selection policy, second manager (`selectOptimalModel`, part_001 lines 508-542) -/

/-- Specialty filter: task specialty, or the generic `general-coding` /
`chat` fallback tags. -/
def filterBySpecialty (ms : List ModelConfig) (taskType : String) : List ModelConfig :=
  ms.filter (fun m =>
    m.specialties.contains taskType ||
    m.specialties.contains "general-coding" ||
    m.specialties.contains "chat")

/-- For real-time features prefer fast models; keep the previous set when
that preference would empty it. -/
def applyFastFilter (suitable : List ModelConfig) (taskType : String) : List ModelConfig :=
  if taskType = "inline-completion" ∨ taskType = "chat" then
    let fastModels := suitable.filter (fun m => m.latency == "low" || strIncludes m.id "7b")
    if fastModels.isEmpty then suitable else fastModels
  else suitable

/-- Prefer local models unless `preferLocal` is explicitly `false`; keep the
previous set when no local model remains. -/
def applyLocalFilter (suitable : List ModelConfig) (preferLocal : Option Bool) :
    List ModelConfig :=
  if preferLocal ≠ some false then
    let localModels := suitable.filter (fun m => m.isLocal)
    if localModels.isEmpty then suitable else localModels
  else suitable

/-- The candidate set after all three filtering steps of the second
`selectOptimalModel`. -/
def suitableModelsAfterFilters (st : ManagerState) (taskType : String)
    (preferLocal : Option Bool) : List ModelConfig :=
  applyLocalFilter (applyFastFilter (filterBySpecialty (getAvailableModels st) taskType) taskType)
    preferLocal

/-- `AIModelManager.selectOptimalModel` (second manager).  Throws
`'No AI models available'` when no adapter is ready; otherwise returns the
pinned `codellama-7b-instruct` when ready, else the first filtered
candidate, else the current model. -/
def selectOptimalModel (st : ManagerState) (taskType : String) (preferLocal : Option Bool) :
    Except String String :=
  let availableModels := getAvailableModels st
  if availableModels.isEmpty then .error "No AI models available"
  else
    let suitableModels := suitableModelsAfterFilters st taskType preferLocal
    .ok (if st.models.contains "codellama-7b-instruct" then "codellama-7b-instruct"
         else match suitableModels with
           | [] => st.currentModel
           | m :: _ => m.id)

/-! ## Selection policy, first manager (`selectOptimalModel`, part_001 lines 185-215)

The first `AIModelManager` selects over the whole config map (no readiness
filter), with an inline-completion latency carve-out and a context-size
narrowing; `context?.length > 50000` is false when the context has no
length, which the `Option Nat` argument models.
-/

/-- Specialty filter of the first manager (no `chat` fallback tag). -/
def filterBySpecialtyFirst (ms : List ModelConfig) (taskType : String) : List ModelConfig :=
  ms.filter (fun m =>
    m.specialties.contains taskType || m.specialties.contains "general-coding")

/-- `context?.length > 50000`: false whenever the context carries no length. -/
def ctxExceeds : Option Nat → Bool
  | some n => 50000 < n
  | none => false

/-- First manager `selectOptimalModel`.  Never throws: falls back to the
current model when every filter leaves nothing. -/
def selectOptimalModelFirst (configs : List ModelConfig) (currentModel : String)
    (taskType : String) (contextLength : Option Nat) (preferLocal : Option Bool) : String :=
  let suitable1 := filterBySpecialtyFirst configs taskType
  let suitable2 :=
    if taskType = "inline-completion" then
      suitable1.filter (fun m => m.latency == "low" || (m.isLocal && m.latency == "medium"))
    else suitable1
  let suitable3 :=
    if ctxExceeds contextLength then
      suitable2.filter (fun m => 100000 ≤ m.contextWindow)
    else suitable2
  let suitable4 := applyLocalFilter suitable3 preferLocal
  match suitable4 with
  | [] => currentModel
  | m :: _ => m.id

/-- Modelled from the spec: the selection variant claimed in section 4.2
step 3, identical to `selectOptimalModelFirst` except that the context-size
narrowing is skipped whenever it would empty the candidate set.  Used only
to compare the claimed behaviour against the source. -/
def selectFirstGuardedContext (configs : List ModelConfig) (currentModel : String)
    (taskType : String) (contextLength : Option Nat) (preferLocal : Option Bool) : String :=
  let suitable1 := filterBySpecialtyFirst configs taskType
  let suitable2 :=
    if taskType = "inline-completion" then
      suitable1.filter (fun m => m.latency == "low" || (m.isLocal && m.latency == "medium"))
    else suitable1
  let suitable3 :=
    if ctxExceeds contextLength then
      let narrowed := suitable2.filter (fun m => 100000 ≤ m.contextWindow)
      if narrowed.isEmpty then suitable2 else narrowed
    else suitable2
  let suitable4 := applyLocalFilter suitable3 preferLocal
  match suitable4 with
  | [] => currentModel
  | m :: _ => m.id

/-! ## Chat and inline dispatch (second manager) -/

structure ChatMessage where
  role : String
  content : String
  timestamp : Nat
deriving DecidableEq

/-- The generic chat request the manager builds; the opaque `context`
payload beyond its `history` array is never read by the manager. -/
structure ChatRequest where
  message : String
  history : List ChatMessage
  maxTokens : Nat
  temperature : ℚ
deriving DecidableEq

structure InlineCompletionRequest where
  code : String
  line : Nat
  column : Nat
  language : String
  maxTokens : Nat
  temperature : ℚ
deriving DecidableEq

/-- The clock reads and random suffixes consumed by one `chat` dispatch, in
program order. -/
structure ChatEnv where
  tReqLog : Nat
  rndReqTx : String
  tReqId : Nat
  rndReqId : String
  tReqMeta : Nat
  tStart : Nat
  tEnd : Nat
  tRespLog : Nat
  rndRespTx : String
deriving DecidableEq

def chatFallbackNoModels : String :=
  "AI chat not available. Please check Ollama connection and ensure models are installed."

def chatFallbackError : String :=
  "Sorry, I encountered an error. Please try again."

def chatFallbackNotFound : String :=
  "Selected AI model not available for chat."

/-- The `error` transaction body built in the catch block of `chat`. -/
def chatErrorBody (st : ManagerState) (history : List ChatMessage) (err : String) : TxBody :=
  { type := .error
    model := jsOrElse ((configFor st st.currentModel).map (fun c => c.name)) st.currentModel
    operation := "chat"
    response := some ("Chat failed: " ++ err)
    metadata := { contextLength := history.length, error := some err } }

/-- The `request` transaction body logged by `chat` before invoking the
adapter. -/
def chatRequestBody (st : ManagerState) (optimalModel : String) (message : String)
    (history : List ChatMessage) (env : ChatEnv) : TxBody :=
  let cfg := configFor st optimalModel
  { type := .request
    model := jsOrElse (cfg.map (fun c => c.name)) optimalModel
    operation := "chat"
    prompt := some message
    metadata :=
      { contextLength := history.length
        maxTokens := some 1024
        temperature := some (3 / 10)
        endpoint := some (jsOrElse (cfg.map (fun c => c.endpoint)) "unknown")
        modelId := some optimalModel
        provider := some (jsOrElse (cfg.map (fun c => c.provider)) "unknown")
        isLocal := some ((cfg.map (fun c => c.isLocal)).getD false)
        requestId := some ("req-" ++ toString env.tReqId ++ "-" ++ env.rndReqId)
        timestampMeta := some env.tReqMeta } }

/-- The `response` transaction body logged by `chat` on adapter success.
The token estimate is `Math.ceil(response.length / 4)`. -/
def chatResponseBody (st : ManagerState) (optimalModel : String) (history : List ChatMessage)
    (response : String) (latency : Int) : TxBody :=
  let cfg := configFor st optimalModel
  { type := .response
    model := jsOrElse (cfg.map (fun c => c.name)) optimalModel
    operation := "chat"
    response := some response
    metadata :=
      { contextLength := history.length
        latency := some latency
        tokens := some ((response.length + 3) / 4)
        responseSize := some response.length
        endpoint := some (jsOrElse (cfg.map (fun c => c.endpoint)) "unknown")
        modelId := some optimalModel
        provider := some (jsOrElse (cfg.map (fun c => c.provider)) "unknown")
        isLocal := some ((cfg.map (fun c => c.isLocal)).getD false) } }

/-- The `ChatRequest` built by `chat`: reduced token budget, fixed
temperature. -/
def chatRequestOf (message : String) (history : List ChatMessage) : ChatRequest :=
  { message := message, history := history, maxTokens := 1024, temperature := 3 / 10 }

/-- `AIModelManager.chat` (second manager).  The adapter's behaviour is the
oracle `adapter` (its thrown errors are `Except.error`); every throw inside
the body is caught, so the call itself always returns a string. -/
def chat (st : ManagerState) (message : String) (history : List ChatMessage)
    (adapter : String → ChatRequest → Except String String) (env : ChatEnv) :
    String × ManagerState :=
  if st.models.isEmpty then (chatFallbackNoModels, st)
  else
    match selectOptimalModel st "chat" none with
    | .error e =>
        (chatFallbackError,
         { st with transactions :=
             logTransaction st.transactions (chatErrorBody st history e) env.tRespLog env.rndRespTx })
    | .ok optimalModel =>
        if st.models.contains optimalModel then
          let request : ChatRequest := chatRequestOf message history
          let st1 :=
            { st with transactions :=
                (logTransaction st.transactions
                  (chatRequestBody st optimalModel message history env) env.tReqLog env.rndReqTx) }
          match adapter optimalModel request with
          | .ok response =>
              let latency : Int := (env.tEnd : Int) - (env.tStart : Int)
              (response,
               { st1 with transactions :=
                   (logTransaction st1.transactions
                     (chatResponseBody st optimalModel history response latency)
                     env.tRespLog env.rndRespTx) })
          | .error err =>
              (chatFallbackError,
               { st1 with transactions :=
                   (logTransaction st1.transactions (chatErrorBody st history err)
                     env.tRespLog env.rndRespTx) })
        else (chatFallbackNotFound, st)

/-- `AIModelManager.getInlineCompletion` (second manager).  Never logs; any
failure degrades to the empty string. -/
def getInlineCompletion (st : ManagerState) (code : String) (line column : Nat)
    (positionLanguage : String)
    (adapter : String → InlineCompletionRequest → Except String String) : String :=
  if st.models.isEmpty then ""
  else
    match selectOptimalModel st "inline-completion" none with
    | .error _ => ""
    | .ok optimalModel =>
        if st.models.contains optimalModel then
          let request : InlineCompletionRequest :=
            { code := code, line := line, column := column,
              language := jsOrString positionLanguage "javascript",
              maxTokens := 128, temperature := 1 / 10 }
          match adapter optimalModel request with
          | .ok s => s
          | .error _ => ""
        else ""

/-- `AIModelManager.clearTransactions`. -/
def clearTransactions (st : ManagerState) : ManagerState :=
  { st with transactions := [] }

/-- `AIModelManager.getTransactions`. -/
def getTransactions (st : ManagerState) : List AITransaction :=
  st.transactions

/-! ## IndexerService: content hash

`generateHash` is the classic JavaScript 31-multiplier rolling hash:
`hash = ((hash << 5) - hash) + charCode; hash = hash & hash`.  Both the
shift and the bitwise and coerce to a signed 32-bit integer (`ToInt32`),
which `toInt32` makes explicit; the intermediate subtraction and addition
are exact in doubles.  The source stores `hash.toString()`; decimal
rendering of integers is injective, so the model keeps the integer value
and compares integers where the source compares the rendered strings. -/

/-- JavaScript `ToInt32`: reduce into `[-2 ^ 31, 2 ^ 31)`. -/
def toInt32 (n : Int) : Int :=
  (n + 2 ^ 31) % 2 ^ 32 - 2 ^ 31

/-- One step of the loop body of `IndexerService.generateHash`. -/
def hashStep (h : Int) (c : Nat) : Int :=
  toInt32 (toInt32 (h * 32) - h + c)

/-- `IndexerService.generateHash` (the integer value behind the stored
decimal string).  `charCodeAt` reads UTF-16 units; Lean chars are code
points, which agree on the basic multilingual plane. -/
def generateHash (content : String) : Int :=
  content.data.foldl (fun h c => hashStep h c.toNat) 0

/-! ## IndexerService: regex-based symbol extraction

Each extraction pattern of the source is an anchored regex made of `\s*`
runs, optional keyword groups, and a single `(\w+)` capture.  They are
embedded as deterministic scanners with explicit greedy-optional
backtracking (`tryOpt` / `tryOptAlts` try the group-present branch first
and fall back to the empty match, exactly like the regex engine).  `\s` is
modelled by its ASCII members. -/

/-- ASCII members of the JavaScript `\s` class. -/
def isJsSpace (c : Char) : Bool :=
  c == ' ' || c == '\t' || c == '\n' || c == '\r' || c == Char.ofNat 11 || c == Char.ofNat 12

/-- The JavaScript `\w` class `[A-Za-z0-9_]`. -/
def isWordChar (c : Char) : Bool :=
  c.isAlphanum || c == '_'

/-- ASCII lowercase folding, as SQLite `LIKE` and `/i` regexes apply. -/
def lowerA (c : Char) : Char :=
  if 'A' ≤ c ∧ c ≤ 'Z' then Char.ofNat (c.toNat + 32) else c

/-- `\s*`: consume the maximal whitespace run (every pattern follows it
with a non-space requirement, so the maximal run is the only viable one). -/
def eatSpaces (s : List Char) : List Char :=
  s.dropWhile isJsSpace

/-- `\s+`: at least one whitespace character, then the maximal run. -/
def eatSpaces1 : List Char → Option (List Char)
  | [] => none
  | c :: s => if isJsSpace c then some (s.dropWhile isJsSpace) else none

/-- A literal word, case-insensitively when `ci` is set. -/
def eatLit (ci : Bool) : List Char → List Char → Option (List Char)
  | [], s => some s
  | _ :: _, [] => none
  | c :: w, d :: s =>
      if (if ci then lowerA c == lowerA d else c == d) then eatLit ci w s else none

/-- `(\w+)`: the maximal nonempty word run (each pattern follows the
capture with `\s*` plus a non-word literal or the end, so the maximal run
is the only viable one). -/
def eatWord1 (s : List Char) : Option (String × List Char) :=
  let run := s.takeWhile isWordChar
  if run.isEmpty then none else some (String.mk run, s.drop run.length)

/-- An optional group `(?:g)?`: try the group-present branch first and
backtrack to the empty match if the rest fails. -/
def tryOpt (g : List Char → Option (List Char)) (rest : List Char → Option α)
    (s : List Char) : Option α :=
  (g s >>= rest).orElse (fun _ => rest s)

/-- An optional keyword alternation `(?:w1|w2|...)?\s*` followed by the
rest of the pattern (the keywords of one group are mutually exclusive at a
given position, so trying them in order is exact). -/
def tryOptAlts (ci : Bool) (ws : List String) (rest : List Char → Option α)
    (s : List Char) : Option α :=
  match ws with
  | [] => rest s
  | w :: ws2 => ((eatLit ci w.data s).map eatSpaces >>= rest).orElse
      (fun _ => tryOptAlts ci ws2 rest s)

/-- The tail `(\w+)` shared by the class / function / interface patterns:
a mandatory space run, then the captured name. -/
def captureAfterSpace (s : List Char) : Option String :=
  eatSpaces1 s >>= fun s1 => (eatWord1 s1).map (fun p => p.1)

/-- The tail `(\w+)\s*\(` of the method patterns. -/
def captureBeforeParen (s : List Char) : Option String :=
  eatWord1 s >>= fun p =>
    match eatSpaces p.2 with
    | '(' :: _ => some p.1
    | _ => none

/-- `/^\s*(?:export\s+)?(?:default\s+)?class\s+(\w+)/` -/
def jsClassName (line : String) : Option String :=
  tryOpt (fun s => eatLit false "export".data s >>= eatSpaces1)
    (tryOpt (fun s => eatLit false "default".data s >>= eatSpaces1)
      (fun s => eatLit false "class".data s >>= captureAfterSpace))
    (eatSpaces line.data)

/-- `/^\s*(?:export\s+)?(?:async\s+)?function\s+(\w+)/` -/
def jsFunctionName (line : String) : Option String :=
  tryOpt (fun s => eatLit false "export".data s >>= eatSpaces1)
    (tryOpt (fun s => eatLit false "async".data s >>= eatSpaces1)
      (fun s => eatLit false "function".data s >>= captureAfterSpace))
    (eatSpaces line.data)

/-- `/^\s*class\s+(\w+)/` -/
def pyClassName (line : String) : Option String :=
  eatLit false "class".data (eatSpaces line.data) >>= captureAfterSpace

/-- `/^\s*(?:async\s+)?def\s+(\w+)/` -/
def pyFunctionName (line : String) : Option String :=
  tryOpt (fun s => eatLit false "async".data s >>= eatSpaces1)
    (fun s => eatLit false "def".data s >>= captureAfterSpace)
    (eatSpaces line.data)

/-- `/^\s*(?:public|private|global)?\s*(?:abstract|virtual)?\s*class\s+(\w+)/i` -/
def apexClassName (line : String) : Option String :=
  tryOptAlts true ["public", "private", "global"]
    (tryOptAlts true ["abstract", "virtual"]
      (fun s => eatLit true "class".data s >>= captureAfterSpace))
    (eatSpaces line.data)

/-- `/^\s*(?:public|private|protected|global)?\s*(?:static)?\s*(?:\w+\s+)?(\w+)\s*\(/i` -/
def apexMethodName (line : String) : Option String :=
  tryOptAlts true ["public", "private", "protected", "global"]
    (tryOptAlts true ["static"]
      (tryOpt (fun s => eatWord1 s >>= fun p => eatSpaces1 p.2) captureBeforeParen))
    (eatSpaces line.data)

/-- `/^\s*(?:public|private|protected)?\s*(?:abstract|final)?\s*class\s+(\w+)/` -/
def javaClassName (line : String) : Option String :=
  tryOptAlts false ["public", "private", "protected"]
    (tryOptAlts false ["abstract", "final"]
      (fun s => eatLit false "class".data s >>= captureAfterSpace))
    (eatSpaces line.data)

/-- `/^\s*(?:public)?\s*interface\s+(\w+)/` -/
def javaInterfaceName (line : String) : Option String :=
  tryOptAlts false ["public"]
    (fun s => eatLit false "interface".data s >>= captureAfterSpace)
    (eatSpaces line.data)

/-- `/^\s*(?:public|private|protected)?\s*(?:static)?\s*(?:\w+\s+)?(\w+)\s*\(/` -/
def javaMethodName (line : String) : Option String :=
  tryOptAlts false ["public", "private", "protected"]
    (tryOptAlts false ["static"]
      (tryOpt (fun s => eatWord1 s >>= fun p => eatSpaces1 p.2) captureBeforeParen))
    (eatSpaces line.data)

/-! ## IndexerService: symbols and extraction -/

/-- `CodeSymbol` from `SettingsService.ts`.  `documentation` is optional
and never produced by extraction, so it is left out; `signature` is always
set by extraction (`line.trim()`). -/
structure CodeSymbol where
  id : String
  name : String
  type : String
  filePath : String
  startLine : Nat
  endLine : Nat
  signature : String
  language : String
deriving DecidableEq

/-- The symbol id template `${filePath}:${name}:${lineNumber}`. -/
def mkSymbolId (filePath name : String) (lineNumber : Nat) : String :=
  filePath ++ ":" ++ name ++ ":" ++ toString lineNumber

/-- JavaScript `String.prototype.trim` (ASCII whitespace). -/
def strTrim (s : String) : String :=
  String.mk (((s.data.dropWhile isJsSpace).reverse.dropWhile isJsSpace).reverse)

/-- One extracted symbol record. -/
def mkSymbol (filePath name type line : String) (lineNumber : Nat) (language : String) :
    CodeSymbol :=
  { id := mkSymbolId filePath name lineNumber
    name := name
    type := type
    filePath := filePath
    startLine := lineNumber
    endLine := lineNumber
    signature := strTrim line
    language := language }

/-- `extractJavaScriptSymbols`: per line, push a class symbol on a class
match and a function symbol on a function match. -/
def jsSymbolsForLine (filePath line : String) (lineNumber : Nat) : List CodeSymbol :=
  (match jsClassName line with
   | some n => [mkSymbol filePath n "class" line lineNumber "javascript"]
   | none => []) ++
  (match jsFunctionName line with
   | some n => [mkSymbol filePath n "function" line lineNumber "javascript"]
   | none => [])

/-- `extractPythonSymbols` per line. -/
def pySymbolsForLine (filePath line : String) (lineNumber : Nat) : List CodeSymbol :=
  (match pyClassName line with
   | some n => [mkSymbol filePath n "class" line lineNumber "python"]
   | none => []) ++
  (match pyFunctionName line with
   | some n => [mkSymbol filePath n "function" line lineNumber "python"]
   | none => [])

/-- `extractApexSymbols` per line: a method symbol is suppressed on a line
that already matched the class pattern. -/
def apexSymbolsForLine (filePath line : String) (lineNumber : Nat) : List CodeSymbol :=
  match apexClassName line with
  | some n => [mkSymbol filePath n "class" line lineNumber "apex"]
  | none =>
      match apexMethodName line with
      | some n => [mkSymbol filePath n "method" line lineNumber "apex"]
      | none => []

/-- `extractJavaSymbols` per line: class, then interface, then a method
symbol only when neither matched. -/
def javaSymbolsForLine (filePath line : String) (lineNumber : Nat) : List CodeSymbol :=
  let classMatch := javaClassName line
  let interfaceMatch := javaInterfaceName line
  (match classMatch with
   | some n => [mkSymbol filePath n "class" line lineNumber "java"]
   | none => []) ++
  (match interfaceMatch with
   | some n => [mkSymbol filePath n "interface" line lineNumber "java"]
   | none => []) ++
  (match classMatch, interfaceMatch with
   | none, none =>
      (match javaMethodName line with
       | some n => [mkSymbol filePath n "method" line lineNumber "java"]
       | none => [])
   | _, _ => [])

/-- Split a character list at every occurrence of `c` (the semantics of
`String.prototype.split` with a one-character separator). -/
def splitOnChar (c : Char) : List Char → List (List Char)
  | [] => [[]]
  | d :: rest =>
      match splitOnChar c rest with
      | [] => if d = c then [[], []] else [[d]]
      | x :: xs => if d = c then [] :: x :: xs else (d :: x) :: xs

/-- `content.split('\n')`. -/
def splitLines (content : String) : List String :=
  (splitOnChar '\n' content.data).map String.mk

/-- Run a per-line extractor over `content.split('\n')` with 1-based line
numbers, concatenating in line order. -/
def extractByLine (f : String → String → Nat → List CodeSymbol) (filePath content : String) :
    List CodeSymbol :=
  ((splitLines content).enum.map (fun p => f filePath p.2 (p.1 + 1))).flatten

/-- `extractSymbolsWithRegex`: dispatch on the language tag (SOQL and
unknown languages yield no symbols). -/
def extractSymbolsWithRegex (filePath content language : String) : List CodeSymbol :=
  if language = "apex" then extractByLine apexSymbolsForLine filePath content
  else if language = "javascript" ∨ language = "typescript" then
    extractByLine jsSymbolsForLine filePath content
  else if language = "python" then extractByLine pySymbolsForLine filePath content
  else if language = "java" then extractByLine javaSymbolsForLine filePath content
  else []

/-- `extractSymbols` delegates to the regex extraction. -/
def extractSymbols (filePath content language : String) : List CodeSymbol :=
  extractSymbolsWithRegex filePath content language

/-! ## IndexerService: language map and file state -/

/-- ASCII lowercase of a string. -/
def strLowerAscii (s : String) : String :=
  String.mk (s.data.map lowerA)

/-- `path.extname(filePath).toLowerCase()`: the substring from the final
dot on (empty when the path has no dot). -/
def extnameLower (p : String) : String :=
  let rev := p.data.reverse
  match rev.dropWhile (fun c => !(c == '.')) with
  | [] => ""
  | _ :: _ => "." ++ strLowerAscii (String.mk ((rev.takeWhile (fun c => !(c == '.'))).reverse))

/-- `IndexerService.getLanguageFromPath`. -/
def getLanguageFromPath (filePath : String) : String :=
  let ext := extnameLower filePath
  if ext = ".apex" ∨ ext = ".cls" ∨ ext = ".trigger" then "apex"
  else if ext = ".js" ∨ ext = ".jsx" then "javascript"
  else if ext = ".ts" ∨ ext = ".tsx" then "typescript"
  else if ext = ".py" then "python"
  else if ext = ".java" then "java"
  else if ext = ".soql" then "soql"
  else "text"

/-- A row of the `file_index` table (`file_path` is the primary key). -/
structure FileRow where
  filePath : String
  content : String
  language : String
  hash : Int
  lastModified : Nat
  createdAt : Nat
deriving DecidableEq

/-- The two tables of the in-memory index database, as lists of rows in
insertion order. -/
structure IndexState where
  fileIndex : List FileRow
  codeSymbols : List CodeSymbol
deriving DecidableEq

def emptyIndex : IndexState := ⟨[], []⟩

/-- `getFileIndex`: `SELECT * FROM file_index WHERE file_path = ?`. -/
def getFileIndex (st : IndexState) (filePath : String) : Option FileRow :=
  st.fileIndex.find? (fun r => r.filePath == filePath)

/-- `storeFileIndex`: `INSERT OR REPLACE` the file row (replace the row
with the same path), `DELETE` every symbol of that path, then insert the
new symbols in order. -/
def storeFileIndex (st : IndexState) (filePath content language : String) (hash : Int)
    (lastModified createdAt : Nat) (symbols : List CodeSymbol) : IndexState :=
  { fileIndex := st.fileIndex.filter (fun r => r.filePath ≠ filePath) ++
      [{ filePath := filePath, content := content, language := language, hash := hash,
         lastModified := lastModified, createdAt := createdAt }]
    codeSymbols := st.codeSymbols.filter (fun s => s.filePath ≠ filePath) ++ symbols }

/-- `IndexerService.indexFile`.  The two clock reads (`lastModified` at
entry, `created_at` inside the store) are the parameters `tMod` and
`tStore`. -/
def indexFile (st : IndexState) (filePath content : String) (tMod tStore : Nat) : IndexState :=
  let language := getLanguageFromPath filePath
  let hash := generateHash content
  match getFileIndex st filePath with
  | some existingIndex =>
      if existingIndex.hash = hash then st
      else storeFileIndex st filePath content language hash tMod tStore
        (extractSymbols filePath content language)
  | none => storeFileIndex st filePath content language hash tMod tStore
      (extractSymbols filePath content language)

/-! ## IndexerService: search

The SQL is
`WHERE name LIKE ? OR signature LIKE ?` with pattern `%query%`, ranked by
`CASE WHEN name = ? THEN 1 WHEN name LIKE ? THEN 2 ELSE 3 END, name` with
pattern `query%`, `LIMIT 50`.  SQLite `LIKE` is case-insensitive on ASCII
and treats `%` and `_` in the pattern as wildcards; `=` and the `name`
ordering use the binary collation.  SQLite leaves the order of rows with
equal sort keys unspecified; the model fixes it as the stable sort of the
table in insertion order. -/

/-- `%` consumes zero or more characters: try the rest of the pattern at
every suffix of the text, nearest first. -/
def likeAnySuffix (f : List Char → Bool) : List Char → Bool
  | [] => f []
  | d :: t2 => f (d :: t2) || likeAnySuffix f t2

/-- An ordinary pattern character (or `_`) consumes exactly one text
character. -/
def likeOneChar (c : Char) (rest : List Char → Bool) : List Char → Bool
  | [] => false
  | d :: t2 => (if c = '_' then true else lowerA c == lowerA d) && rest t2

/-- SQLite `LIKE` matching (ASCII case folding, `%` and `_` wildcards). -/
def likeChars : List Char → List Char → Bool
  | [], t => t.isEmpty
  | c :: p, t =>
      if c = '%' then likeAnySuffix (likeChars p) t
      else likeOneChar c (likeChars p) t

/-- `text LIKE pattern`. -/
def sqlLike (pattern text : String) : Bool :=
  likeChars pattern.data text.data

/-- The `CASE` ranking expression of `search`. -/
def searchTier (query : String) (s : CodeSymbol) : Nat :=
  if s.name = query then 1
  else if sqlLike (query ++ "%") s.name then 2
  else 3

/-- The `ORDER BY` key comparison: tier, then name. -/
def searchLe (query : String) (a b : CodeSymbol) : Bool :=
  decide (searchTier query a < searchTier query b) ||
    (decide (searchTier query a = searchTier query b) && decide (a.name ≤ b.name))

/-- `IndexerService.search` over the symbol table. -/
def search (rows : List CodeSymbol) (query : String) : List CodeSymbol :=
  let searchTerm := "%" ++ query ++ "%"
  let matched := rows.filter (fun s => sqlLike searchTerm s.name || sqlLike searchTerm s.signature)
  (matched.mergeSort (searchLe query)).take 50

/-- Modelled from the spec: `search(query)` as section 4.4 words it —
case-insensitive substring match against name and signature, exact name
matches first, then (case-insensitive) name-prefix matches, then the other
matches, secondarily by name, capped at 50. -/
def searchTierSpec (query : String) (s : CodeSymbol) : Nat :=
  if s.name = query then 1
  else if listStarts (strLowerAscii query).data (strLowerAscii s.name).data then 2
  else 3

/-- Modelled from the spec: the comparison of `searchSpec`. -/
def searchLeSpec (query : String) (a b : CodeSymbol) : Bool :=
  decide (searchTierSpec query a < searchTierSpec query b) ||
    (decide (searchTierSpec query a = searchTierSpec query b) && decide (a.name ≤ b.name))

/-- Modelled from the spec: substring-matching search (see `searchTierSpec`). -/
def searchSpec (rows : List CodeSymbol) (query : String) : List CodeSymbol :=
  let q := (strLowerAscii query).data
  let matched := rows.filter (fun s =>
    listOccurs q (strLowerAscii s.name).data || listOccurs q (strLowerAscii s.signature).data)
  (matched.mergeSort (searchLeSpec query)).take 50

/-! ## EmbeddingsService

Vector entries are JavaScript doubles; the model uses exact rationals with
`Math.sqrt` as an explicit function parameter, so every structural claim
(lengths, filtering, ordering) is independent of rounding. -/

structure EmbeddingRow where
  id : String
  filePath : String
  content : String
  embedding : List ℚ
  language : String
  symbolType : Option String
  startLine : Nat
  endLine : Nat
  createdAt : Nat
deriving DecidableEq

structure SemanticSearchResult where
  id : String
  filePath : String
  content : String
  similarity : ℚ
  language : String
  startLine : Nat
  endLine : Nat
deriving DecidableEq

/-- `reduce((sum, val) => sum + val * val, 0)`. -/
def sumSq (l : List ℚ) : ℚ :=
  l.foldl (fun sum val => sum + val * val) 0

/-- The dot-product accumulator of `calculateCosineSimilarity`. -/
def dotProd (a b : List ℚ) : ℚ :=
  (a.zip b).foldl (fun sum p => sum + p.1 * p.2) 0

/-- `EmbeddingsService.calculateCosineSimilarity`: throws on a length
mismatch, returns 0 when either magnitude is 0. -/
def calculateCosineSimilarity (sqrt : ℚ → ℚ) (a b : List ℚ) : Except String ℚ :=
  if a.length ≠ b.length then .error "Vectors must have the same length"
  else
    let magnitudeA := sqrt (sumSq a)
    let magnitudeB := sqrt (sumSq b)
    if magnitudeA = 0 ∨ magnitudeB = 0 then .ok 0
    else .ok (dotProd a b / (magnitudeA * magnitudeB))

/-- `getEmbeddingByLocation`: `db.get` returns the first row at exactly
that `(file_path, start_line, end_line)`. -/
def getEmbeddingByLocation (rows : List EmbeddingRow) (filePath : String)
    (startLine endLine : Nat) : Option (List ℚ) :=
  (rows.find? (fun r =>
    r.filePath == filePath && r.startLine == startLine && r.endLine == endLine)).map
    (fun r => r.embedding)

/-- One accepted similarity result. -/
def mkSimilarityResult (r : EmbeddingRow) (similarity : ℚ) : SemanticSearchResult :=
  { id := r.id, filePath := r.filePath, content := r.content, similarity := similarity,
    language := r.language, startLine := r.startLine, endLine := r.endLine }

/-- The comparison loop of `findSimilarCode`: similarity against each
candidate in row order, keeping those above the 0.7 floor; a dimension
mismatch throws out of the whole loop. -/
def collectSimilar (sqrt : ℚ → ℚ) (target : List ℚ) :
    List EmbeddingRow → Except String (List SemanticSearchResult)
  | [] => .ok []
  | r :: rest =>
      match calculateCosineSimilarity sqrt target r.embedding with
      | .error e => .error e
      | .ok similarity =>
          match collectSimilar sqrt target rest with
          | .error e => .error e
          | .ok tail =>
              .ok (if 7 / 10 < similarity then mkSimilarityResult r similarity :: tail
                   else tail)

/-- `EmbeddingsService.findSimilarCode`: absent target location yields `[]`
(a normal state); rows at the target location are excluded by
`file_path != ? OR start_line != ? OR end_line != ?`; results above 0.7 are
sorted by descending similarity and capped at `lim`.  A throw inside the
loop reaches the catch, which returns `[]`. -/
def findSimilarCode (sqrt : ℚ → ℚ) (rows : List EmbeddingRow) (filePath : String)
    (startLine endLine lim : Nat) : List SemanticSearchResult :=
  match getEmbeddingByLocation rows filePath startLine endLine with
  | none => []
  | some targetEmbedding =>
      let cands := rows.filter (fun r =>
        !(r.filePath == filePath && r.startLine == startLine && r.endLine == endLine))
      match collectSimilar sqrt targetEmbedding cands with
      | .error _ => []
      | .ok results =>
          (results.mergeSort (fun a b => decide (b.similarity ≤ a.similarity))).take lim

/-- The accumulation loop of `generateSimpleEmbedding`:
`for (i = 0; i < text.length && i < embedding.length; i++)
   embedding[i % embedding.length] += text.charCodeAt(i)`. -/
def fillBuckets : List Nat → Nat → List ℚ → List ℚ
  | [], _, embedding => embedding
  | c :: rest, i, embedding =>
      if i < embedding.length then
        fillBuckets rest (i + 1)
          (embedding.set (i % embedding.length) (embedding.getD (i % embedding.length) 0 + c))
      else embedding

/-- `EmbeddingsService.generateSimpleEmbedding` on the char-code sequence
of the input text: accumulate into a 384-entry vector, then normalise when
the magnitude is positive.  `Math.sqrt` is the explicit parameter `sqrt`. -/
def generateSimpleEmbedding (sqrt : ℚ → ℚ) (text : List Nat) : List ℚ :=
  let embedding := fillBuckets text 0 (List.replicate 384 0)
  let magnitude := sqrt (sumSq embedding)
  if 0 < magnitude then embedding.map (fun v => v / magnitude) else embedding

/-! # Helper lemmas -/

theorem find?_append_of_none {α : Type} (p : α → Bool) (l1 l2 : List α)
    (h : ∀ x ∈ l1, p x = false) : (l1 ++ l2).find? p = l2.find? p := by
  induction l1 with
  | nil => rfl
  | cons a l ih =>
      have ha := h a (List.mem_cons_self a l)
      rw [List.cons_append, List.find?_cons_of_neg _ (by simp [ha])]
      exact ih (fun x hx => h x (List.mem_cons_of_mem a hx))

/-- After a `storeFileIndex`, looking the path up returns exactly the
stored row. -/
theorem getFileIndex_store (st : IndexState) (p c lang : String) (h : Int) (tm tc : Nat)
    (syms : List CodeSymbol) :
    getFileIndex (storeFileIndex st p c lang h tm tc syms) p
      = some { filePath := p, content := c, language := lang, hash := h,
               lastModified := tm, createdAt := tc } := by
  unfold getFileIndex storeFileIndex
  rw [find?_append_of_none]
  · simp [List.find?]
  · intro r hr
    rw [List.mem_filter] at hr
    have : r.filePath ≠ p := by simpa using hr.2
    simpa using this

/-- One bounded append, phrased on the last-100 suffix. -/
theorem logTransaction_snoc (L : List AITransaction) (t : TxBody) (n : Nat) (r : String) :
    logTransaction (L.drop (L.length - 100)) t n r
      = (L ++ [mkFullTransaction t n r]).drop (L.length + 1 - 100) := by
  unfold logTransaction
  by_cases h : L.length < 100
  · have h0 : L.length - 100 = 0 := by omega
    have h1 : L.length + 1 - 100 = 0 := by omega
    simp [h0, h1]
  · have hd : (L.drop (L.length - 100)).length = 100 := by
      rw [List.length_drop]; omega
    have hcond : (L.drop (L.length - 100) ++ [mkFullTransaction t n r]).length > 100 := by
      simp [hd]
    rw [if_pos hcond]
    rw [List.length_append, hd]
    have h2 : 100 + [mkFullTransaction t n r].length - 100 = 1 := by simp
    rw [h2]
    rw [List.drop_append_eq_append_drop, List.drop_append_eq_append_drop]
    have h3 : 1 - (L.drop (L.length - 100)).length = 0 := by rw [hd]
    have h4 : L.length + 1 - 100 - L.length = 0 := by omega
    rw [h3, h4, List.drop_drop]
    have h5 : L.length - 100 + 1 = L.length + 1 - 100 := by omega
    simp only [List.drop_zero]
    rw [h5]

end AI2DE

namespace AI2DE

/-! # Claims -/

/-- C3: the transaction log is a bounded ring of capacity 100.  Folding any
sequence of logged transactions from the empty log yields exactly the most
recent 100 completed transactions in append order (`drop (n - 100)` of the
full sequence), so the length after each append is `min n 100` and the
oldest entries are the ones evicted; only `clearTransactions` empties the
log. -/
theorem transaction_log_bounded (entries : List (TxBody × Nat × String)) :
    (entries.foldl (fun log e => logTransaction log e.1 e.2.1 e.2.2) []
        = (entries.map (fun e => mkFullTransaction e.1 e.2.1 e.2.2)).drop (entries.length - 100))
      ∧ (entries.foldl (fun log e => logTransaction log e.1 e.2.1 e.2.2) []).length
          = min entries.length 100
      ∧ ∀ st : ManagerState, (clearTransactions st).transactions = [] := by
  have key : entries.foldl (fun log e => logTransaction log e.1 e.2.1 e.2.2) []
      = (entries.map (fun e => mkFullTransaction e.1 e.2.1 e.2.2)).drop (entries.length - 100) := by
    induction entries using List.reverseRecOn with
    | nil => rfl
    | append_singleton es e ih =>
        rw [List.foldl_append, List.foldl_cons, List.foldl_nil, ih]
        have hlen : (es.map (fun e => mkFullTransaction e.1 e.2.1 e.2.2)).length = es.length :=
          List.length_map _ _
        rw [← hlen, logTransaction_snoc]
        rw [List.map_append, List.length_append]
        simp
  refine ⟨key, ?_, fun st => rfl⟩
  rw [key, List.length_drop, List.length_map]
  omega

/-- C4: re-indexing a path with unchanged content is a no-op regardless of
the clock: the stored hash matches the recomputed hash, so the second call
returns the state unchanged (same symbols, same stored hash and
timestamps). -/
theorem indexFile_idempotent (st : IndexState) (filePath content : String)
    (t1 t2 t3 t4 : Nat) :
    indexFile (indexFile st filePath content t1 t2) filePath content t3 t4
      = indexFile st filePath content t1 t2 := by
  unfold indexFile
  cases hfind : getFileIndex st filePath with
  | some r =>
      by_cases hh : r.hash = generateHash content
      · simp only [hfind, hh, if_pos rfl]
        simp [hfind, hh]
      · simp only [hfind, if_neg hh]
        rw [getFileIndex_store]
        simp
  | none =>
      simp only [hfind]
      rw [getFileIndex_store]
      simp

/-- C6: with zero ready adapters, `chat` returns the informative non-empty
degraded-mode string without throwing (the embedding is total and takes the
early-return branch), and `getInlineCompletion` returns the empty string
without throwing. -/
theorem degraded_mode_no_adapters (st : ManagerState) (message : String)
    (history : List ChatMessage) (adapter : String → ChatRequest → Except String String)
    (env : ChatEnv) (code : String) (line column : Nat) (positionLanguage : String)
    (iadapter : String → InlineCompletionRequest → Except String String)
    (h : st.models = []) :
    chat st message history adapter env = (chatFallbackNoModels, st)
      ∧ chatFallbackNoModels ≠ ""
      ∧ getInlineCompletion st code line column positionLanguage iadapter = "" := by
  refine ⟨?_, by decide, ?_⟩
  · unfold chat
    rw [h]
    rfl
  · unfold getInlineCompletion
    rw [h]
    rfl

def stNoModels : ManagerState :=
  { modelConfigs := [], models := [], currentModel := "codellama-7b-instruct",
    transactions := [] }

/-- Evaluation of one `chat` dispatch once selection has produced a ready
model id: the request transaction is logged first, then the adapter runs,
then the response (or error) transaction is logged. -/
theorem chat_run (st : ManagerState) (message : String) (history : List ChatMessage)
    (adapter : String → ChatRequest → Except String String) (env : ChatEnv) (mid : String)
    (hsel : selectOptimalModel st "chat" none = Except.ok mid)
    (hmem : st.models.contains mid = true) :
    chat st message history adapter env
      = match adapter mid (chatRequestOf message history) with
        | Except.ok response =>
            (response,
             { st with transactions :=
                 (logTransaction
                   (logTransaction st.transactions
                     (chatRequestBody st mid message history env) env.tReqLog env.rndReqTx)
                   (chatResponseBody st mid history response
                     ((env.tEnd : Int) - (env.tStart : Int)))
                   env.tRespLog env.rndRespTx) })
        | Except.error err =>
            (chatFallbackError,
             { st with transactions :=
                 (logTransaction
                   (logTransaction st.transactions
                     (chatRequestBody st mid message history env) env.tReqLog env.rndReqTx)
                   (chatErrorBody st history err) env.tRespLog env.rndRespTx) }) := by
  have hne : st.models.isEmpty = false := by
    cases h : st.models with
    | nil => rw [h] at hmem; simp at hmem
    | cons a l => simp
  unfold chat
  rw [hne, hsel]
  simp only [Bool.false_eq_true, if_false, hmem, if_true]

/-- C7: every chat dispatch that reaches an adapter first appends a
`request` transaction recording the prompt, the resource limits
(`maxTokens`, `temperature`), the endpoint, provider and locality of the
selected config; on success it appends a `response` transaction whose
metadata records the elapsed latency and the token estimate
`ceil(length / 4)`, and on adapter failure it appends an `error`
transaction instead and returns the user-safe fallback string. -/
theorem chat_transaction_logging (st : ManagerState) (message : String)
    (history : List ChatMessage) (adapter : String → ChatRequest → Except String String)
    (env : ChatEnv) (mid : String)
    (hsel : selectOptimalModel st "chat" none = Except.ok mid)
    (hmem : st.models.contains mid = true) :
    (chatRequestBody st mid message history env).type = TxType.request
      ∧ (chatRequestBody st mid message history env).prompt = some message
      ∧ (chatRequestBody st mid message history env).metadata.maxTokens = some 1024
      ∧ (chatRequestBody st mid message history env).metadata.temperature = some (3 / 10)
      ∧ (chatRequestBody st mid message history env).metadata.endpoint
          = some (jsOrElse ((configFor st mid).map (fun c => c.endpoint)) "unknown")
      ∧ (chatRequestBody st mid message history env).metadata.provider
          = some (jsOrElse ((configFor st mid).map (fun c => c.provider)) "unknown")
      ∧ (chatRequestBody st mid message history env).metadata.isLocal
          = some (((configFor st mid).map (fun c => c.isLocal)).getD false)
      ∧ (∀ response,
          adapter mid (chatRequestOf message history) = Except.ok response →
          chat st message history adapter env
            = (response,
               { st with transactions :=
                   (logTransaction
                     (logTransaction st.transactions
                       (chatRequestBody st mid message history env) env.tReqLog env.rndReqTx)
                     (chatResponseBody st mid history response
                       ((env.tEnd : Int) - (env.tStart : Int)))
                     env.tRespLog env.rndRespTx) })
            ∧ (chatResponseBody st mid history response
                ((env.tEnd : Int) - (env.tStart : Int))).type = TxType.response
            ∧ (chatResponseBody st mid history response
                ((env.tEnd : Int) - (env.tStart : Int))).metadata.tokens
                  = some ((response.length + 3) / 4)
            ∧ (chatResponseBody st mid history response
                ((env.tEnd : Int) - (env.tStart : Int))).metadata.latency
                  = some ((env.tEnd : Int) - (env.tStart : Int)))
      ∧ (∀ err,
          adapter mid (chatRequestOf message history) = Except.error err →
          chat st message history adapter env
            = (chatFallbackError,
               { st with transactions :=
                   (logTransaction
                     (logTransaction st.transactions
                       (chatRequestBody st mid message history env) env.tReqLog env.rndReqTx)
                     (chatErrorBody st history err) env.tRespLog env.rndRespTx) })
            ∧ (chatErrorBody st history err).type = TxType.error
            ∧ chatFallbackError ≠ "") := by
  refine ⟨rfl, rfl, rfl, rfl, rfl, rfl, rfl, ?_, ?_⟩
  · intro response hresp
    refine ⟨?_, rfl, rfl, rfl⟩
    rw [chat_run st message history adapter env mid hsel hmem, hresp]
  · intro err herr
    refine ⟨?_, rfl, by decide⟩
    rw [chat_run st message history adapter env mid hsel hmem, herr]

/-- The `codellama-7b-instruct` registry entry of the second manager. -/
def cfg7b : ModelConfig :=
  { id := "codellama-7b-instruct", name := "Code Llama 7B Instruct (Fast)",
    provider := "local", type := "chat", maxTokens := 2048, contextWindow := 4096,
    specialties := ["code-completion", "code-generation", "debugging", "chat",
      "general-coding"],
    languages := ["apex", "javascript", "python", "java", "soql"],
    latency := "low", isLocal := true, endpoint := "http://127.0.0.1:11434/api/generate" }

/-- A manager where only `codellama-7b-instruct` is ready. -/
def stOnly7b : ManagerState :=
  { modelConfigs := [cfg7b], models := ["codellama-7b-instruct"],
    currentModel := "codellama-7b-instruct", transactions := [] }

def envW : ChatEnv := ⟨1, "r1", 2, "r2", 3, 4, 9, 10, "r3"⟩

theorem chat_transaction_logging_witness :
    (chat stOnly7b "hello" [] (fun _ _ => Except.ok "hi there") envW).1 = "hi there"
      ∧ (chat stOnly7b "hello" [] (fun _ _ => Except.error "boom") envW).1
          = chatFallbackError := by
  have hok := (chat_transaction_logging stOnly7b "hello" []
    (fun _ _ => Except.ok "hi there") envW "codellama-7b-instruct" (by rfl)
    (by decide)).2.2.2.2.2.2.2.1 "hi there" rfl
  have herr := (chat_transaction_logging stOnly7b "hello" []
    (fun _ _ => Except.error "boom") envW "codellama-7b-instruct" (by rfl)
    (by decide)).2.2.2.2.2.2.2.2 "boom" rfl
  exact ⟨by rw [hok.1], by rw [herr.1]⟩

/-- What a successful comparison loop produces: every kept result clears
the 0.7 floor and is built from one of the candidate rows. -/
theorem collectSimilar_ok_mem (sqrt : ℚ → ℚ) (target : List ℚ) :
    ∀ (rows : List EmbeddingRow) (results : List SemanticSearchResult),
      collectSimilar sqrt target rows = Except.ok results →
      ∀ x ∈ results,
        7 / 10 < x.similarity ∧ ∃ r ∈ rows, x = mkSimilarityResult r x.similarity := by
  intro rows
  induction rows with
  | nil =>
      intro results h x hx
      rw [collectSimilar] at h
      obtain rfl : ([] : List SemanticSearchResult) = results := by
        simpa using h
      simp at hx
  | cons r rest ih =>
      intro results h x hx
      rw [collectSimilar] at h
      cases hc : calculateCosineSimilarity sqrt target r.embedding with
      | error e => rw [hc] at h; simp at h
      | ok sim =>
          rw [hc] at h
          cases ht : collectSimilar sqrt target rest with
          | error e => rw [ht] at h; simp at h
          | ok tail =>
              rw [ht] at h
              obtain rfl : (if 7 / 10 < sim then mkSimilarityResult r sim :: tail
                  else tail) = results := by
                simpa using h
              by_cases hs : 7 / 10 < sim
              · rw [if_pos hs] at hx
                rcases List.mem_cons.mp hx with hx1 | hx2
                · subst hx1
                  exact ⟨hs, r, List.mem_cons_self r rest, rfl⟩
                · obtain ⟨h1, rr, hrr, hxe⟩ := ih tail ht x hx2
                  exact ⟨h1, rr, List.mem_cons_of_mem r hrr, hxe⟩
              · rw [if_neg hs] at hx
                obtain ⟨h1, rr, hrr, hxe⟩ := ih tail ht x hx
                exact ⟨h1, rr, List.mem_cons_of_mem r hrr, hxe⟩

/-- The descending-similarity comparison is transitive and total. -/
theorem simLe_trans : ∀ a b c : SemanticSearchResult,
    decide (b.similarity ≤ a.similarity) = true →
    decide (c.similarity ≤ b.similarity) = true →
    decide (c.similarity ≤ a.similarity) = true := by
  intro a b c h1 h2
  rw [decide_eq_true_iff] at h1 h2 ⊢
  exact le_trans h2 h1

theorem simLe_total : ∀ a b : SemanticSearchResult,
    (decide (b.similarity ≤ a.similarity) || decide (a.similarity ≤ b.similarity)) = true := by
  intro a b
  rcases le_total b.similarity a.similarity with h | h
  · simp [h]
  · simp [h]

/-- C9: `findSimilarCode` returns `[]` when no embedding is stored at the
exact location, and `[]` when every stored record (in particular, only the
target itself) sits at that location; otherwise every returned result has
similarity strictly above 0.7, results are sorted by descending
similarity, at most `lim` results are returned, and no result comes from
the target location. -/
theorem findSimilarCode_props (sqrt : ℚ → ℚ) (rows : List EmbeddingRow) (filePath : String)
    (startLine endLine lim : Nat) :
    (getEmbeddingByLocation rows filePath startLine endLine = none →
        findSimilarCode sqrt rows filePath startLine endLine lim = [])
      ∧ ((∀ r ∈ rows, r.filePath = filePath ∧ r.startLine = startLine ∧ r.endLine = endLine) →
          findSimilarCode sqrt rows filePath startLine endLine lim = [])
      ∧ (findSimilarCode sqrt rows filePath startLine endLine lim).length ≤ lim
      ∧ (∀ x ∈ findSimilarCode sqrt rows filePath startLine endLine lim,
          7 / 10 < x.similarity)
      ∧ List.Pairwise (fun a b => b.similarity ≤ a.similarity)
          (findSimilarCode sqrt rows filePath startLine endLine lim)
      ∧ (∀ x ∈ findSimilarCode sqrt rows filePath startLine endLine lim,
          ¬(x.filePath = filePath ∧ x.startLine = startLine ∧ x.endLine = endLine)) := by
  cases hloc : getEmbeddingByLocation rows filePath startLine endLine with
  | none =>
      have hnil : findSimilarCode sqrt rows filePath startLine endLine lim = [] := by
        unfold findSimilarCode
        rw [hloc]
      rw [hnil]
      exact ⟨fun _ => rfl, fun _ => rfl, by simp, by simp, by simp, by simp⟩
  | some target =>
      have hbody : findSimilarCode sqrt rows filePath startLine endLine lim
          = match collectSimilar sqrt target (rows.filter (fun r =>
              !(r.filePath == filePath && r.startLine == startLine
                && r.endLine == endLine))) with
            | Except.error _ => []
            | Except.ok results =>
                (results.mergeSort (fun a b => decide (b.similarity ≤ a.similarity))).take
                  lim := by
        unfold findSimilarCode
        rw [hloc]
      refine ⟨fun h => absurd h (by simp), ?_, ?_, ?_, ?_, ?_⟩
      · intro hall
        have hfil : rows.filter (fun r =>
            !(r.filePath == filePath && r.startLine == startLine
              && r.endLine == endLine)) = [] := by
          rw [List.filter_eq_nil_iff]
          intro r hr
          obtain ⟨h1, h2, h3⟩ := hall r hr
          simp [h1, h2, h3]
        rw [hbody, hfil]
        simp [collectSimilar]
      · rw [hbody]
        cases hcol : collectSimilar sqrt target (rows.filter (fun r =>
            !(r.filePath == filePath && r.startLine == startLine
              && r.endLine == endLine))) with
        | error e => simp
        | ok results => exact List.length_take_le lim _
      · rw [hbody]
        cases hcol : collectSimilar sqrt target (rows.filter (fun r =>
            !(r.filePath == filePath && r.startLine == startLine
              && r.endLine == endLine))) with
        | error e => simp
        | ok results =>
            intro x hx
            have hx1 : x ∈ results.mergeSort
                (fun a b => decide (b.similarity ≤ a.similarity)) :=
              (List.take_sublist lim _).subset hx
            have hx2 : x ∈ results :=
              (List.mergeSort_perm results _).subset hx1
            exact (collectSimilar_ok_mem sqrt target _ results hcol x hx2).1
      · rw [hbody]
        cases hcol : collectSimilar sqrt target (rows.filter (fun r =>
            !(r.filePath == filePath && r.startLine == startLine
              && r.endLine == endLine))) with
        | error e => simp
        | ok results =>
            have hsorted := @List.sorted_mergeSort SemanticSearchResult
              (fun a b => decide (b.similarity ≤ a.similarity))
              simLe_trans simLe_total results
            have hsorted2 : List.Pairwise (fun a b : SemanticSearchResult =>
                b.similarity ≤ a.similarity)
                (results.mergeSort (fun a b => decide (b.similarity ≤ a.similarity))) :=
              hsorted.imp (fun h => of_decide_eq_true h)
            exact hsorted2.sublist (List.take_sublist lim _)
      · rw [hbody]
        cases hcol : collectSimilar sqrt target (rows.filter (fun r =>
            !(r.filePath == filePath && r.startLine == startLine
              && r.endLine == endLine))) with
        | error e => simp
        | ok results =>
            intro x hx
            have hx1 : x ∈ results.mergeSort
                (fun a b => decide (b.similarity ≤ a.similarity)) :=
              (List.take_sublist lim _).subset hx
            have hx2 : x ∈ results :=
              (List.mergeSort_perm results _).subset hx1
            obtain ⟨-, r, hr, hxe⟩ := collectSimilar_ok_mem sqrt target _ results hcol x hx2
            have hpred := (List.mem_filter.mp hr).2
            have hf : x.filePath = r.filePath := by rw [hxe]; rfl
            have hs : x.startLine = r.startLine := by rw [hxe]; rfl
            have he : x.endLine = r.endLine := by rw [hxe]; rfl
            intro hcontra
            obtain ⟨h1, h2, h3⟩ := hcontra
            rw [hf] at h1
            rw [hs] at h2
            rw [he] at h3
            simp [h1, h2, h3] at hpred

def rowScenario : EmbeddingRow :=
  { id := "id1", filePath := "f.ts", content := "const x=1", embedding := [1],
    language := "typescript", symbolType := none, startLine := 1, endLine := 1,
    createdAt := 0 }

theorem findSimilarCode_props_witness :
    findSimilarCode (fun _ => 0) [] "f.ts" 1 1 5 = []
      ∧ findSimilarCode (fun _ => 0) [rowScenario] "f.ts" 1 1 5 = [] := by
  constructor
  · exact (findSimilarCode_props (fun _ => 0) [] "f.ts" 1 1 5).1 rfl
  · exact (findSimilarCode_props (fun _ => 0) [rowScenario] "f.ts" 1 1 5).2.1 (by decide)

/-- The accumulation loop never changes the vector length. -/
theorem fillBuckets_length : ∀ (text : List Nat) (i : Nat) (emb : List ℚ),
    (fillBuckets text i emb).length = emb.length
  | [], _, _ => rfl
  | c :: rest, i, emb => by
      rw [fillBuckets]
      by_cases h : i < emb.length
      · rw [if_pos h, fillBuckets_length rest, List.length_set]
      · rw [if_neg h]

theorem sumSq_cons (x : ℚ) (l : List ℚ) : sumSq (x :: l) = x * x + sumSq l := by
  have shift : ∀ (l : List ℚ) (a : ℚ),
      l.foldl (fun sum val => sum + val * val) a
        = a + l.foldl (fun sum val => sum + val * val) 0 := by
    intro l
    induction l with
    | nil => intro a; simp
    | cons y t ih =>
        intro a
        rw [List.foldl_cons, List.foldl_cons, ih, ih (0 + y * y)]
        ring
  simp only [sumSq, List.foldl_cons]
  rw [shift]
  ring

theorem sumSq_nonneg (l : List ℚ) : 0 ≤ sumSq l := by
  induction l with
  | nil => rw [sumSq]; simp
  | cons x t ih =>
      rw [sumSq_cons]
      have := mul_self_nonneg x
      linarith

theorem sumSq_eq_zero (l : List ℚ) (h : sumSq l = 0) : l = List.replicate l.length 0 := by
  induction l with
  | nil => rfl
  | cons x t ih =>
      rw [sumSq_cons] at h
      have hx2 := mul_self_nonneg x
      have ht := sumSq_nonneg t
      have hx : x * x = 0 := by linarith
      have ht0 : sumSq t = 0 := by linarith
      rw [List.length_cons, List.replicate_succ, mul_self_eq_zero.mp hx, ih ht0]
      rw [List.length_replicate]

theorem sumSq_map_div (l : List ℚ) (m : ℚ) (hm : m ≠ 0) :
    sumSq (l.map (fun v => v / m)) = sumSq l / (m * m) := by
  induction l with
  | nil => simp [sumSq]
  | cons x t ih =>
      rw [List.map_cons, sumSq_cons, sumSq_cons, ih]
      field_simp

/-- `generateSimpleEmbedding` with its let-bindings reduced. -/
theorem generateSimpleEmbedding_eq (sqrt : ℚ → ℚ) (text : List Nat) :
    generateSimpleEmbedding sqrt text
      = if 0 < sqrt (sumSq (fillBuckets text 0 (List.replicate 384 0)))
        then (fillBuckets text 0 (List.replicate 384 0)).map
          (fun v => v / sqrt (sumSq (fillBuckets text 0 (List.replicate 384 0))))
        else fillBuckets text 0 (List.replicate 384 0) := rfl

/-- The fallback vector always has the store dimensionality 384. -/
theorem generateSimpleEmbedding_length (sqrt : ℚ → ℚ) (text : List Nat) :
    (generateSimpleEmbedding sqrt text).length = 384 := by
  rw [generateSimpleEmbedding_eq]
  split
  · rw [List.length_map, fillBuckets_length, List.length_replicate]
  · rw [fillBuckets_length, List.length_replicate]

/-- `calculateCosineSimilarity` with its let-bindings reduced. -/
theorem calculateCosineSimilarity_eq (sqrt : ℚ → ℚ) (a b : List ℚ) :
    calculateCosineSimilarity sqrt a b
      = if a.length ≠ b.length then Except.error "Vectors must have the same length"
        else if sqrt (sumSq a) = 0 ∨ sqrt (sumSq b) = 0 then Except.ok 0
        else Except.ok (dotProd a b / (sqrt (sumSq a) * sqrt (sumSq b))) := rfl

/-- Equal-length vectors can never hit the dimension-mismatch throw. -/
theorem cosine_ok_of_length_eq (sqrtc : ℚ → ℚ) (a b : List ℚ) (h : a.length = b.length) :
    ∃ q, calculateCosineSimilarity sqrtc a b = Except.ok q := by
  rw [calculateCosineSimilarity_eq, if_neg (by simp [h])]
  by_cases hm : sqrtc (sumSq a) = 0 ∨ sqrtc (sumSq b) = 0
  · exact ⟨0, by rw [if_pos hm]⟩
  · exact ⟨_, by rw [if_neg hm]⟩

/-- C10: the fallback embedding generator returns a vector of exactly 384
entries whose squared Euclidean norm is 1 (so the norm is 1), or the
all-zero vector when the accumulated magnitude is 0; consequently any two
fallback-generated embeddings have equal length and cosine similarity on
them never raises the vector-length-mismatch error.  `Math.sqrt` enters as
any function agreeing with a square root on the accumulated magnitude. -/
theorem generateSimpleEmbedding_norm (sqrt : ℚ → ℚ) (text : List Nat)
    (hsq : sqrt (sumSq (fillBuckets text 0 (List.replicate 384 0)))
        * sqrt (sumSq (fillBuckets text 0 (List.replicate 384 0)))
        = sumSq (fillBuckets text 0 (List.replicate 384 0)))
    (hnn : 0 ≤ sqrt (sumSq (fillBuckets text 0 (List.replicate 384 0)))) :
    (generateSimpleEmbedding sqrt text).length = 384
      ∧ (sumSq (generateSimpleEmbedding sqrt text) = 1
          ∨ generateSimpleEmbedding sqrt text = List.replicate 384 0)
      ∧ ∀ (sqrt2 sqrtc : ℚ → ℚ) (text2 : List Nat),
          (generateSimpleEmbedding sqrt text).length
              = (generateSimpleEmbedding sqrt2 text2).length
            ∧ ∃ q, calculateCosineSimilarity sqrtc (generateSimpleEmbedding sqrt text)
                (generateSimpleEmbedding sqrt2 text2) = Except.ok q := by
  refine ⟨generateSimpleEmbedding_length sqrt text, ?_, ?_⟩
  · by_cases h0 : sumSq (fillBuckets text 0 (List.replicate 384 0)) = 0
    · right
      rw [generateSimpleEmbedding_eq]
      rw [h0] at hsq ⊢
      have hm : sqrt 0 = 0 := mul_self_eq_zero.mp hsq
      rw [hm, if_neg (lt_irrefl 0)]
      have hlen : (fillBuckets text 0 (List.replicate 384 0)).length = 384 := by
        rw [fillBuckets_length, List.length_replicate]
      conv_rhs => rw [← hlen]
      exact sumSq_eq_zero _ h0
    · left
      have hmne : sqrt (sumSq (fillBuckets text 0 (List.replicate 384 0))) ≠ 0 := by
        intro h
        rw [h, zero_mul] at hsq
        exact h0 hsq.symm
      have hmpos : 0 < sqrt (sumSq (fillBuckets text 0 (List.replicate 384 0))) :=
        lt_of_le_of_ne hnn (Ne.symm hmne)
      rw [generateSimpleEmbedding_eq, if_pos hmpos]
      rw [sumSq_map_div _ _ hmne, hsq, div_self h0]
  · intro sqrt2 sqrtc text2
    have h1 := generateSimpleEmbedding_length sqrt text
    have h2 := generateSimpleEmbedding_length sqrt2 text2
    exact ⟨by rw [h1, h2], cosine_ok_of_length_eq sqrtc _ _ (by rw [h1, h2])⟩

theorem sumSq_replicate_zero (n : Nat) : sumSq (List.replicate n (0 : ℚ)) = 0 := by
  induction n with
  | zero => rfl
  | succ k ih => rw [List.replicate_succ, sumSq_cons, ih]; ring

theorem generateSimpleEmbedding_norm_witness :
    (generateSimpleEmbedding (fun _ => 0) []).length = 384
      ∧ (sumSq (generateSimpleEmbedding (fun _ => 0) []) = 1
          ∨ generateSimpleEmbedding (fun _ => 0) [] = List.replicate 384 0) := by
  have hz : sumSq (fillBuckets [] 0 (List.replicate 384 (0 : ℚ))) = 0 :=
    sumSq_replicate_zero 384
  have h := generateSimpleEmbedding_norm (fun _ => 0) []
    (by show (0 : ℚ) * 0 = _; rw [hz]; ring) (by show (0 : ℚ) ≤ 0; exact le_refl 0)
  exact ⟨h.1, h.2.1⟩

/-- A bare `%` pattern matches every string. -/
theorem likeChars_percent : ∀ t : List Char, likeChars ['%'] t = true := by
  intro t
  induction t with
  | nil => rfl
  | cons d t2 ih =>
      rw [likeChars, if_pos rfl, likeAnySuffix]
      rw [likeChars, if_pos rfl] at ih
      rw [ih]
      simp [likeChars]

/-- A wildcard-free pattern ending in `%` matches exactly the strings that
start with it, up to ASCII case. -/
theorem likeChars_tail (q : List Char) : ∀ t : List Char, '%' ∉ q → '_' ∉ q →
    likeChars (q ++ ['%']) t = listStarts (q.map lowerA) (t.map lowerA) := by
  induction q with
  | nil =>
      intro t _ _
      rw [List.nil_append, likeChars_percent, List.map_nil]
      rfl
  | cons c q2 ih =>
      intro t hp hu
      have hc1 : ¬c = '%' := by
        intro h
        subst h
        exact hp (List.mem_cons_self _ _)
      have hc2 : ¬c = '_' := by
        intro h
        subst h
        exact hu (List.mem_cons_self _ _)
      have hp2 : '%' ∉ q2 := fun h => hp (List.mem_cons_of_mem _ h)
      have hu2 : '_' ∉ q2 := fun h => hu (List.mem_cons_of_mem _ h)
      cases t with
      | nil =>
          rw [List.cons_append, likeChars, if_neg hc1, likeOneChar]
          simp [List.map_cons, listStarts]
      | cons d t2 =>
          rw [List.cons_append, likeChars, if_neg hc1, likeOneChar]
          rw [List.map_cons, List.map_cons, listStarts]
          rw [← ih t2 hp2 hu2]
          rw [if_neg hc2]

/-- A wildcard-free pattern wrapped in `%...%` matches exactly the strings
that contain it, up to ASCII case. -/
theorem likeChars_wrap (q : List Char) (hp : '%' ∉ q) (hu : '_' ∉ q) :
    ∀ t : List Char,
      likeChars ('%' :: (q ++ ['%'])) t = listOccurs (q.map lowerA) (t.map lowerA) := by
  intro t
  induction t with
  | nil =>
      rw [likeChars, if_pos rfl, likeAnySuffix, likeChars_tail q [] hp hu, List.map_nil,
        listOccurs]
  | cons d t2 ih =>
      rw [likeChars, if_pos rfl] at ih ⊢
      rw [likeAnySuffix, likeChars_tail q (d :: t2) hp hu, ih]
      rw [List.map_cons, listOccurs]

/-- With a wildcard-free query, the `CASE` ranking agrees with the
spec-side exact / case-insensitive-start / other ranking. -/
theorem searchTier_eq_spec (query : String) (hp : '%' ∉ query.data)
    (hu : '_' ∉ query.data) (s : CodeSymbol) :
    searchTier query s = searchTierSpec query s := by
  unfold searchTier searchTierSpec
  have hq : (query ++ "%").data = query.data ++ ['%'] := by
    simp [String.data_append]
  have htier : sqlLike (query ++ "%") s.name
      = listStarts (strLowerAscii query).data (strLowerAscii s.name).data := by
    rw [sqlLike, hq, likeChars_tail query.data s.name.data hp hu]
    rfl
  rw [htier]

/-- `search` and `searchSpec` zeta-reduced. -/
theorem search_eq_def (rows : List CodeSymbol) (query : String) :
    search rows query
      = ((rows.filter (fun s => sqlLike ("%" ++ query ++ "%") s.name
            || sqlLike ("%" ++ query ++ "%") s.signature)).mergeSort
          (searchLe query)).take 50 := rfl

theorem searchSpec_eq_def (rows : List CodeSymbol) (query : String) :
    searchSpec rows query
      = ((rows.filter (fun s =>
            listOccurs (strLowerAscii query).data (strLowerAscii s.name).data
              || listOccurs (strLowerAscii query).data (strLowerAscii s.signature).data)).mergeSort
          (searchLeSpec query)).take 50 := rfl

/-- C8 amended: for queries without the SQL LIKE metacharacters `%` and
`_`, `search(query)` is exactly the spec-side search: case-insensitive
substring match against symbol name and signature, ranked exact name match
first, then case-insensitive name-prefix match, then the other matches,
secondarily by name, capped at 50 results.  (Queries containing `%` or `_`
are interpreted as LIKE wildcards instead — see the counterexample.) -/
theorem search_eq_searchSpec (rows : List CodeSymbol) (query : String)
    (hp : '%' ∉ query.data) (hu : '_' ∉ query.data) :
    search rows query = searchSpec rows query := by
  rw [search_eq_def, searchSpec_eq_def]
  have hdata : ("%" ++ query ++ "%").data = '%' :: (query.data ++ ['%']) := by
    simp [String.data_append]
  have hfil : (fun s : CodeSymbol => sqlLike ("%" ++ query ++ "%") s.name
        || sqlLike ("%" ++ query ++ "%") s.signature)
      = (fun s : CodeSymbol =>
          listOccurs (strLowerAscii query).data (strLowerAscii s.name).data
            || listOccurs (strLowerAscii query).data (strLowerAscii s.signature).data) := by
    funext s
    rw [sqlLike, sqlLike, hdata, likeChars_wrap query.data hp hu,
      likeChars_wrap query.data hp hu]
    rfl
  have hle : searchLe query = searchLeSpec query := by
    funext a b
    unfold searchLe searchLeSpec
    rw [searchTier_eq_spec query hp hu a, searchTier_eq_spec query hp hu b]
  rw [hfil, hle]

def symAbc : CodeSymbol :=
  { id := "f.ts:abc:1", name := "abc", type := "function", filePath := "f.ts",
    startLine := 1, endLine := 1, signature := "function abc()",
    language := "javascript" }

/-- C8 counterexample: the query `a_c` is not a substring of the symbol
name `abc` or of its signature (case-insensitively), yet `search` returns
the symbol, because `_` reaches SQLite LIKE as a single-character
wildcard; the spec-side substring search returns nothing. -/
theorem search_wildcard_counterexample :
    search [symAbc] "a_c" = [symAbc]
      ∧ searchSpec [symAbc] "a_c" = []
      ∧ listOccurs (strLowerAscii "a_c").data (strLowerAscii symAbc.name).data = false
      ∧ listOccurs (strLowerAscii "a_c").data
          (strLowerAscii symAbc.signature).data = false := by
  refine ⟨?_, ?_, by decide, by decide⟩
  · rw [search_eq_def]
    have hfil : [symAbc].filter (fun s => sqlLike ("%" ++ "a_c" ++ "%") s.name
        || sqlLike ("%" ++ "a_c" ++ "%") s.signature) = [symAbc] := by decide
    rw [hfil, List.mergeSort_singleton]
    rfl
  · rw [searchSpec_eq_def]
    have hfil : [symAbc].filter (fun s =>
        listOccurs (strLowerAscii "a_c").data (strLowerAscii s.name).data
          || listOccurs (strLowerAscii "a_c").data (strLowerAscii s.signature).data)
        = [] := by decide
    rw [hfil, List.mergeSort_nil]
    rfl

theorem search_eq_searchSpec_witness :
    search [symAbc] "abc" = searchSpec [symAbc] "abc" :=
  search_eq_searchSpec [symAbc] "abc" (by decide) (by decide)

/-! ## The rolling hash in `ZMod (2 ^ 32)`

`generateHash` agrees, modulo `2 ^ 32`, with the plain fold
`h ↦ 31 * h + c` over the character codes; substituting a single character
changes that value by `(a - b) * 31 ^ k`, which is nonzero because 31 is a
unit modulo `2 ^ 32`. -/

/-- The abstract 31-ary value of the rolling hash. -/
def polyZ (l : List Nat) (h0 : ZMod (2 ^ 32)) : ZMod (2 ^ 32) :=
  l.foldl (fun (h : ZMod (2 ^ 32)) (c : Nat) => 31 * h + (c : ZMod (2 ^ 32))) h0

theorem polyZ_cons (c : Nat) (l : List Nat) (h0 : ZMod (2 ^ 32)) :
    polyZ (c :: l) h0 = polyZ l (31 * h0 + c) := by
  unfold polyZ
  rw [List.foldl_cons]

theorem polyZ_append (l1 l2 : List Nat) (h0 : ZMod (2 ^ 32)) :
    polyZ (l1 ++ l2) h0 = polyZ l2 (polyZ l1 h0) := by
  unfold polyZ
  rw [List.foldl_append]

theorem polyZ_shift (l : List Nat) : ∀ h0 : ZMod (2 ^ 32),
    polyZ l h0 = h0 * 31 ^ l.length + polyZ l 0 := by
  induction l with
  | nil =>
      intro h0
      unfold polyZ
      simp
  | cons c rest ih =>
      intro h0
      rw [polyZ_cons, polyZ_cons, ih, ih (31 * 0 + c)]
      rw [List.length_cons]
      ring

/-- `toInt32` only changes an integer by a multiple of `2 ^ 32`. -/
theorem toInt32_cast (n : Int) : ((toInt32 n : Int) : ZMod (2 ^ 32)) = (n : ZMod (2 ^ 32)) := by
  have hdvd : ((2 ^ 32 : ℕ) : Int) ∣ (toInt32 n - n) := by
    obtain ⟨q, hq⟩ : ∃ q, (n + 2 ^ 31) % 2 ^ 32 = n + 2 ^ 31 - 2 ^ 32 * q :=
      ⟨(n + 2 ^ 31) / 2 ^ 32, by rw [Int.emod_def]⟩
    refine ⟨-q, ?_⟩
    unfold toInt32
    rw [hq]
    push_cast
    ring
  have h0 : ((toInt32 n - n : Int) : ZMod (2 ^ 32)) = 0 :=
    (ZMod.intCast_zmod_eq_zero_iff_dvd _ _).mpr hdvd
  push_cast at h0
  exact sub_eq_zero.mp h0

theorem hashStep_cast (h : Int) (c : Nat) :
    ((hashStep h c : Int) : ZMod (2 ^ 32))
      = 31 * (h : ZMod (2 ^ 32)) + (c : ZMod (2 ^ 32)) := by
  unfold hashStep
  rw [toInt32_cast]
  push_cast
  rw [toInt32_cast]
  push_cast
  ring

/-- The machine hash and the abstract hash agree modulo `2 ^ 32`. -/
theorem hashList_cast (l : List Char) :
    ((l.foldl (fun h c => hashStep h c.toNat) 0 : Int) : ZMod (2 ^ 32))
      = polyZ (l.map Char.toNat) 0 := by
  have gen : ∀ (l : List Char) (h0 : Int),
      ((l.foldl (fun h c => hashStep h c.toNat) h0 : Int) : ZMod (2 ^ 32))
        = polyZ (l.map Char.toNat) ((h0 : Int) : ZMod (2 ^ 32)) := by
    intro l
    induction l with
    | nil => intro h0; rfl
    | cons c rest ih =>
        intro h0
        rw [List.foldl_cons, ih, List.map_cons, polyZ_cons, hashStep_cast]
  rw [gen l 0]
  norm_num

theorem isUnit_31 : IsUnit (31 : ZMod (2 ^ 32)) := by
  haveI : NeZero (2 ^ 32 : ℕ) := ⟨by norm_num⟩
  have hco : Nat.Coprime 31 (2 ^ 32) := Nat.Coprime.pow_right _ (by decide)
  have := (ZMod.isUnit_iff_coprime 31 (2 ^ 32)).mpr hco
  simpa using this

/-- Distinct characters stay distinct in `ZMod (2 ^ 32)`: their codes are
below `2 ^ 32`. -/
theorem charCast_ne (a b : Char) (hab : a ≠ b) :
    ((a.toNat : ZMod (2 ^ 32))) ≠ (b.toNat : ZMod (2 ^ 32)) := by
  intro h
  have ha : a.toNat < 2 ^ 32 := UInt32.toNat_lt a.val
  have hb : b.toNat < 2 ^ 32 := UInt32.toNat_lt b.val
  have hval : a.toNat = b.toNat := by
    have h1 := ZMod.val_cast_of_lt (n := 2 ^ 32) ha
    have h2 := ZMod.val_cast_of_lt (n := 2 ^ 32) hb
    rw [← h1, ← h2, h]
  exact hab (Char.eq_of_val_eq (UInt32.eq_of_val_eq (Fin.ext hval)))

/-- Substituting one character always changes `generateHash`: the hashes
differ by `(a - b) * 31 ^ k` modulo `2 ^ 32`, and 31 is a unit. -/
theorem generateHash_one_char_diff (pre suf : List Char) (a b : Char) (hab : a ≠ b)
    (c1 c2 : String) (hc1 : c1.data = pre ++ a :: suf) (hc2 : c2.data = pre ++ b :: suf) :
    generateHash c2 ≠ generateHash c1 := by
  intro hEq
  have h1 : ((generateHash c1 : Int) : ZMod (2 ^ 32))
      = polyZ ((pre ++ a :: suf).map Char.toNat) 0 := by
    unfold generateHash
    rw [hc1]
    exact hashList_cast _
  have h2 : ((generateHash c2 : Int) : ZMod (2 ^ 32))
      = polyZ ((pre ++ b :: suf).map Char.toNat) 0 := by
    unfold generateHash
    rw [hc2]
    exact hashList_cast _
  have hc : polyZ ((pre ++ b :: suf).map Char.toNat) 0
      = polyZ ((pre ++ a :: suf).map Char.toNat) 0 := by
    rw [← h1, ← h2, hEq]
  have hdiff : ((b.toNat : ZMod (2 ^ 32)) - a.toNat) * 31 ^ (suf.map Char.toNat).length
      = 0 := by
    have e1 : polyZ ((pre ++ b :: suf).map Char.toNat) 0
        - polyZ ((pre ++ a :: suf).map Char.toNat) 0
        = ((b.toNat : ZMod (2 ^ 32)) - a.toNat) * 31 ^ (suf.map Char.toNat).length := by
      rw [List.map_append, List.map_cons, List.map_append, List.map_cons]
      rw [polyZ_append, polyZ_append, polyZ_cons, polyZ_cons]
      rw [polyZ_shift (suf.map Char.toNat)
        (31 * polyZ (pre.map Char.toNat) 0 + (b.toNat : ZMod (2 ^ 32)))]
      rw [polyZ_shift (suf.map Char.toNat)
        (31 * polyZ (pre.map Char.toNat) 0 + (a.toNat : ZMod (2 ^ 32)))]
      ring
    rw [← e1, hc, sub_self]
  have hu : IsUnit ((31 : ZMod (2 ^ 32)) ^ (suf.map Char.toNat).length) :=
    isUnit_31.pow _
  have hz : ((b.toNat : ZMod (2 ^ 32)) - a.toNat) = 0 :=
    (hu.mul_left_eq_zero).mp hdiff
  exact charCast_ne b a (fun h => hab h.symm) (sub_eq_zero.mp hz)

/-- Every symbol a per-line extractor produces carries that file path. -/
theorem extractByLine_filePath (f : String → String → Nat → List CodeSymbol)
    (hf : ∀ p line ln s, s ∈ f p line ln → s.filePath = p)
    (p content : String) : ∀ s ∈ extractByLine f p content, s.filePath = p := by
  intro s hs
  unfold extractByLine at hs
  rw [List.mem_flatten] at hs
  obtain ⟨l, hl, hsl⟩ := hs
  rw [List.mem_map] at hl
  obtain ⟨pair, _, rfl⟩ := hl
  exact hf p pair.2 (pair.1 + 1) s hsl

theorem jsSymbolsForLine_filePath (p line : String) (ln : Nat) :
    ∀ s ∈ jsSymbolsForLine p line ln, s.filePath = p := by
  intro s hs
  unfold jsSymbolsForLine at hs
  rcases List.mem_append.mp hs with h | h
  · cases hm : jsClassName line with
    | some n => rw [hm] at h; simp at h; rw [h]; rfl
    | none => rw [hm] at h; simp at h
  · cases hm : jsFunctionName line with
    | some n => rw [hm] at h; simp at h; rw [h]; rfl
    | none => rw [hm] at h; simp at h

theorem pySymbolsForLine_filePath (p line : String) (ln : Nat) :
    ∀ s ∈ pySymbolsForLine p line ln, s.filePath = p := by
  intro s hs
  unfold pySymbolsForLine at hs
  rcases List.mem_append.mp hs with h | h
  · cases hm : pyClassName line with
    | some n => rw [hm] at h; simp at h; rw [h]; rfl
    | none => rw [hm] at h; simp at h
  · cases hm : pyFunctionName line with
    | some n => rw [hm] at h; simp at h; rw [h]; rfl
    | none => rw [hm] at h; simp at h

theorem apexSymbolsForLine_filePath (p line : String) (ln : Nat) :
    ∀ s ∈ apexSymbolsForLine p line ln, s.filePath = p := by
  intro s hs
  unfold apexSymbolsForLine at hs
  cases hm : apexClassName line with
  | some n => rw [hm] at hs; simp at hs; rw [hs]; rfl
  | none =>
      rw [hm] at hs
      cases hm2 : apexMethodName line with
      | some n => rw [hm2] at hs; simp at hs; rw [hs]; rfl
      | none => rw [hm2] at hs; simp at hs

theorem javaSymbolsForLine_filePath (p line : String) (ln : Nat) :
    ∀ s ∈ javaSymbolsForLine p line ln, s.filePath = p := by
  intro s hs
  unfold javaSymbolsForLine at hs
  simp only [List.mem_append] at hs
  rcases hs with (h | h) | h
  · cases hm : javaClassName line with
    | some n => rw [hm] at h; simp at h; rw [h]; rfl
    | none => rw [hm] at h; simp at h
  · cases hm : javaInterfaceName line with
    | some n => rw [hm] at h; simp at h; rw [h]; rfl
    | none => rw [hm] at h; simp at h
  · cases hm : javaClassName line with
    | some n => rw [hm] at h; simp at h
    | none =>
        rw [hm] at h
        cases hm2 : javaInterfaceName line with
        | some n => rw [hm2] at h; simp at h
        | none =>
            rw [hm2] at h
            cases hm3 : javaMethodName line with
            | some n => rw [hm3] at h; simp at h; rw [h]; rfl
            | none => rw [hm3] at h; simp at h

theorem extractSymbols_filePath (p content lang : String) :
    ∀ s ∈ extractSymbols p content lang, s.filePath = p := by
  intro s hs
  unfold extractSymbols extractSymbolsWithRegex at hs
  split at hs
  · exact extractByLine_filePath _ apexSymbolsForLine_filePath p content s hs
  · split at hs
    · exact extractByLine_filePath _ jsSymbolsForLine_filePath p content s hs
    · split at hs
      · exact extractByLine_filePath _ pySymbolsForLine_filePath p content s hs
      · split at hs
        · exact extractByLine_filePath _ javaSymbolsForLine_filePath p content s hs
        · simp at hs

/-- C5: on a one-character substitution the content hash always changes, so
re-indexing is not skipped, and `storeFileIndex` replaces the path's
symbols wholesale: afterwards the symbols owned by the path are exactly
the fresh extraction of the new content (every old symbol deleted, no
stale symbols, no duplication from the store), symbols of other paths are
untouched, and the stored row carries the new hash and timestamps. -/
theorem reindex_replaces_symbols (st : IndexState) (p c1 c2 : String)
    (pre suf : List Char) (a b : Char)
    (hc1 : c1.data = pre ++ a :: suf) (hc2 : c2.data = pre ++ b :: suf) (hab : a ≠ b)
    (r : FileRow) (hrow : getFileIndex st p = some r) (hhash : r.hash = generateHash c1)
    (tMod tStore : Nat) :
    generateHash c2 ≠ generateHash c1
      ∧ (indexFile st p c2 tMod tStore).codeSymbols.filter (fun s => s.filePath = p)
          = extractSymbols p c2 (getLanguageFromPath p)
      ∧ (indexFile st p c2 tMod tStore).codeSymbols.filter (fun s => s.filePath ≠ p)
          = st.codeSymbols.filter (fun s => s.filePath ≠ p)
      ∧ getFileIndex (indexFile st p c2 tMod tStore) p
          = some { filePath := p, content := c2, language := getLanguageFromPath p,
                   hash := generateHash c2, lastModified := tMod, createdAt := tStore } := by
  have hne : generateHash c2 ≠ generateHash c1 :=
    generateHash_one_char_diff pre suf a b hab c1 c2 hc1 hc2
  have hstore : indexFile st p c2 tMod tStore
      = storeFileIndex st p c2 (getLanguageFromPath p) (generateHash c2) tMod tStore
        (extractSymbols p c2 (getLanguageFromPath p)) := by
    have hcond : ¬(r.hash = generateHash c2) := by
      rw [hhash]
      exact fun h => hne h.symm
    simp only [indexFile, hrow]
    rw [if_neg hcond]
  refine ⟨hne, ?_, ?_, ?_⟩
  · rw [hstore]
    unfold storeFileIndex
    rw [List.filter_append]
    have hleft : (st.codeSymbols.filter (fun s => s.filePath ≠ p)).filter
        (fun s => s.filePath = p) = [] := by
      rw [List.filter_eq_nil_iff]
      intro s hsm
      have := (List.mem_filter.mp hsm).2
      simp at this ⊢
      exact this
    have hright : (extractSymbols p c2 (getLanguageFromPath p)).filter
        (fun s => s.filePath = p) = extractSymbols p c2 (getLanguageFromPath p) := by
      rw [List.filter_eq_self]
      intro s hsm
      simp [extractSymbols_filePath p c2 (getLanguageFromPath p) s hsm]
    rw [hleft, hright, List.nil_append]
  · rw [hstore]
    unfold storeFileIndex
    rw [List.filter_append]
    have hleft : (st.codeSymbols.filter (fun s => s.filePath ≠ p)).filter
        (fun s => s.filePath ≠ p) = st.codeSymbols.filter (fun s => s.filePath ≠ p) := by
      rw [List.filter_eq_self]
      intro s hsm
      exact (List.mem_filter.mp hsm).2
    have hright : (extractSymbols p c2 (getLanguageFromPath p)).filter
        (fun s => s.filePath ≠ p) = [] := by
      rw [List.filter_eq_nil_iff]
      intro s hsm
      simp [extractSymbols_filePath p c2 (getLanguageFromPath p) s hsm]
    rw [hleft, hright, List.append_nil]
  · rw [hstore]
    exact getFileIndex_store st p c2 (getLanguageFromPath p) (generateHash c2) tMod tStore _

def stIndexed : IndexState :=
  indexFile emptyIndex "a.ts" "function foo() \x7b\x7d" 1 2

set_option maxRecDepth 100000 in
theorem reindex_replaces_symbols_witness :
    generateHash "function goo() \x7b\x7d" ≠ generateHash "function foo() \x7b\x7d"
      ∧ (indexFile stIndexed "a.ts" "function goo() \x7b\x7d" 3 4).codeSymbols.filter
          (fun s => s.filePath = "a.ts")
          = extractSymbols "a.ts" "function goo() \x7b\x7d" (getLanguageFromPath "a.ts") := by
  have h := reindex_replaces_symbols stIndexed "a.ts"
    "function foo() \x7b\x7d" "function goo() \x7b\x7d"
    ("function ").data ("oo() \x7b\x7d").data 'f' 'g'
    (by decide) (by decide) (by decide)
    { filePath := "a.ts", content := "function foo() \x7b\x7d", language := "typescript",
      hash := generateHash "function foo() \x7b\x7d", lastModified := 1, createdAt := 2 }
    (by decide) rfl 3 4
  exact ⟨h.1, h.2.1⟩

/-- The `codellama-70b-instruct` registry entry of the second manager: its
specialties carry none of the generic fallback tags. -/
def cfg70b : ModelConfig :=
  { id := "codellama-70b-instruct", name := "Code Llama 70B Instruct (Powerful)",
    provider := "local", type := "chat", maxTokens := 4096, contextWindow := 16384,
    specialties := ["complex-reasoning", "architecture", "code-review"],
    languages := ["apex", "javascript", "python", "java", "soql"],
    latency := "high", isLocal := true, endpoint := "http://127.0.0.1:11434/api/generate" }

/-- A manager where only `codellama-70b-instruct` is ready. -/
def stOnly70b : ManagerState :=
  { modelConfigs := [cfg70b], models := ["codellama-70b-instruct"],
    currentModel := "codellama-70b-instruct", transactions := [] }

/-- C1 counterexample: with only `codellama-70b-instruct` ready, the
specialty filter for `code-completion` leaves an empty candidate set, yet
selection returns that adapter id instead of failing with
`No AI models available`. -/
theorem selection_empty_candidates_counterexample :
    suitableModelsAfterFilters stOnly70b "code-completion" none = []
      ∧ getAvailableModels stOnly70b ≠ []
      ∧ selectOptimalModel stOnly70b "code-completion" none
          = Except.ok "codellama-70b-instruct" := by
  refine ⟨by decide, by decide, by rfl⟩

/-- C1 amended: selection fails with `No AI models available` exactly when
the ready adapter set is empty before any filtering; when the filtering
steps empty the candidate set while some adapter is ready, selection
returns the pinned `codellama-7b-instruct` when it is ready, else the
current model id, rather than failing. -/
theorem selection_error_iff_no_ready (st : ManagerState) (taskType : String)
    (preferLocal : Option Bool) :
    ((∃ e, selectOptimalModel st taskType preferLocal = Except.error e)
        ↔ getAvailableModels st = [])
      ∧ (getAvailableModels st ≠ [] →
          suitableModelsAfterFilters st taskType preferLocal = [] →
          selectOptimalModel st taskType preferLocal
            = Except.ok (if st.models.contains "codellama-7b-instruct"
                then "codellama-7b-instruct" else st.currentModel)) := by
  unfold selectOptimalModel
  by_cases h : (getAvailableModels st).isEmpty
  · rw [if_pos h]
    constructor
    · exact ⟨fun _ => List.isEmpty_iff.mp h, fun _ => ⟨_, rfl⟩⟩
    · intro hne
      exact absurd (List.isEmpty_iff.mp h) hne
  · rw [if_neg h]
    constructor
    · constructor
      · rintro ⟨e, he⟩
        exact absurd he (by simp)
      · intro hnil
        exact absurd (List.isEmpty_iff.mpr hnil) h
    · intro _ hempty
      rw [hempty]

theorem selection_error_iff_no_ready_witness :
    (∃ e, selectOptimalModel stNoModels "chat" none = Except.error e)
      ∧ selectOptimalModel stOnly70b "code-completion" none
          = Except.ok "codellama-70b-instruct" := by
  constructor
  · exact (selection_error_iff_no_ready stNoModels "chat" none).1.mpr rfl
  · have h := (selection_error_iff_no_ready stOnly70b "code-completion" none).2
      (by decide) (by decide)
    have hval : (if stOnly70b.models.contains "codellama-7b-instruct"
        then "codellama-7b-instruct" else stOnly70b.currentModel)
          = "codellama-70b-instruct" := by decide
    rw [h, hval]

/-- A lone cloud config whose context window is below the 100000-token bar
of the first selection policy. -/
def cfgSmallWindow : ModelConfig :=
  { id := "model-a", name := "Model A", provider := "x", type := "chat", maxTokens := 1024,
    contextWindow := 16384, specialties := ["general-coding"], languages := [],
    latency := "medium", isLocal := false, endpoint := "https://example.invalid" }

/-- C2 counterexample: with a 60000-long context the first selection policy
applies the context-window narrowing even though it empties the candidate
set (the claimed skip-if-empty variant would return `model-a`); the source
instead falls through to the current model id. -/
theorem context_filter_not_skipped_counterexample :
    selectOptimalModelFirst [cfgSmallWindow] "model-x" "chat" (some 60000) none = "model-x"
      ∧ selectFirstGuardedContext [cfgSmallWindow] "model-x" "chat" (some 60000) none
          = "model-a"
      ∧ ("model-x" : String) ≠ "model-a" := by
  refine ⟨by decide, by decide, by decide⟩

/-- C2 amended: in the first selection policy, a context longer than 50000
narrows the candidates to context windows of at least 100000
unconditionally — when every specialty-suitable adapter falls below that
bar the candidate set becomes empty and selection falls back to the
current model id (so selection still returns an id, but the filter is not
skipped).  The second selection policy has no context-size narrowing at
all. -/
theorem context_filter_unconditional (configs : List ModelConfig)
    (currentModel taskType : String) (n : Nat) (preferLocal : Option Bool)
    (hn : 50000 < n)
    (hsmall : ∀ m ∈ filterBySpecialtyFirst configs taskType, m.contextWindow < 100000) :
    selectOptimalModelFirst configs currentModel taskType (some n) preferLocal
      = currentModel := by
  unfold selectOptimalModelFirst
  have hctx : ctxExceeds (some n) = true := by
    simp [ctxExceeds, hn]
  rw [hctx]
  simp only [if_true]
  set s1 := filterBySpecialtyFirst configs taskType with hs1
  set s2 := (if taskType = "inline-completion" then
      s1.filter (fun m => m.latency == "low" || (m.isLocal && m.latency == "medium"))
    else s1) with hs2
  have hsub : ∀ m ∈ s2, m ∈ s1 := by
    intro m hm
    rw [hs2] at hm
    by_cases ht : taskType = "inline-completion"
    · rw [if_pos ht] at hm
      exact (List.mem_filter.mp hm).1
    · rwa [if_neg ht] at hm
  have hnil : s2.filter (fun m => 100000 ≤ m.contextWindow) = [] := by
    rw [List.filter_eq_nil_iff]
    intro m hm
    have := hsmall m (hsub m hm)
    simp
    omega
  rw [hnil]
  have hloc : applyLocalFilter [] preferLocal = [] := by
    unfold applyLocalFilter
    split <;> simp
  rw [hloc]

theorem context_filter_unconditional_witness :
    selectOptimalModelFirst [cfgSmallWindow] "model-x" "chat" (some 60000) none
      = "model-x" :=
  context_filter_unconditional [cfgSmallWindow] "model-x" "chat" 60000 none
    (by decide) (by decide)

theorem degraded_mode_no_adapters_witness :
    chat stNoModels "hello" [] (fun _ _ => Except.ok "ignored")
        ⟨1, "r1", 2, "r2", 3, 4, 9, 10, "r3"⟩ = (chatFallbackNoModels, stNoModels)
      ∧ getInlineCompletion stNoModels "const x" 1 1 "typescript"
          (fun _ _ => Except.ok "ignored") = "" := by
  have h := degraded_mode_no_adapters stNoModels "hello" []
    (fun _ _ => Except.ok "ignored") ⟨1, "r1", 2, "r2", 3, 4, 9, 10, "r3"⟩
    "const x" 1 1 "typescript" (fun _ _ => Except.ok "ignored") rfl
  exact ⟨h.1, h.2.2⟩

end AI2DE
